import Mathlib

/-!
Verification of the session-based load-balancing plugin (package `loadbalance`).

The Go source is embedded shallowly:
* `netip.Addr` / `net.IP` are modelled as natural numbers (`Addr`); all the
  code does with an address is compare it for equality and convert it with
  `AsSlice`, which is injective, so the identification is faithful.
* `float32` / `float64` metric values are modelled as exact rationals `ℚ`
  (the values the code manipulates: copies, comparisons and `+1`).
* `time.Time` is modelled as rational seconds since the Unix epoch, so the
  sentinel `time.Unix(0, 0)` is `0` and `time.Since(t).Seconds() < x`
  becomes `now - t < x`.
* Go maps are modelled by lists of their entries; iteration order of a map
  is arbitrary, so functions that iterate a map take the enumeration as an
  argument and theorems quantify over it.
* `math/rand.Shuffle` is a Fisher–Yates walk driven by the random stream;
  the stream of random draws is passed explicitly as a list of naturals
  (`js`), the draw for index `i` being `js.headD 0 % (i+1)`.
* Functions that can panic (out-of-range index, nil dereference) return
  `Option`, `none` marking the panic.
-/

namespace LoadBalance

/-- Model of `netip.Addr` (and of `net.IP` obtained via `AsSlice`):
an abstract address identified up to equality. -/
abbrev Addr := ℕ

/-- Constants from `session_manager.go`: scrape targets every 15s,
remove host from active if unavailable for 30+ seconds. -/
def DefaultScrapeSeconds : ℕ := 15

/-- Default liveness timeout (seconds). -/
def DefaultTimeoutSeconds : ℕ := 30

/-- The Go `Host` struct: ip, prometheus port, scraped base value
(`lastValue` in the spec), last update time, and current estimate. -/
structure Host where
  ip : Addr
  port : ℕ
  base : ℚ
  updated : ℚ
  estimate : ℚ
  deriving DecidableEq

/-- `Host.Update`: on a successful scrape, overwrite base and estimate with
the scraped value and stamp the update time (`time.Now()` is passed in as
`now`). -/
def Host.Update (host : Host) (value : ℚ) (now : ℚ) : Host :=
  { host with base := value, estimate := value, updated := now }

/-- `Host.Active`: true if host was updated in the last `interval` seconds,
i.e. `time.Since(host.updated).Seconds() < float64(interval)`. -/
def Host.Active (host : Host) (now : ℚ) (interval : ℕ) : Bool :=
  decide (now - host.updated < (interval : ℚ))

/-- The host literal built by `SessionManager.Add` for a fresh address:
port 0, sentinel update time `time.Unix(0,0)`, base and estimate 0. -/
def newHost (a : Addr) : Host :=
  { ip := a, port := 0, base := 0, updated := 0, estimate := 0 }

/-! ### `math/rand.Shuffle` (Fisher–Yates), as used by `GetIPs` -/

/-- One `swap(i, j)` callback of `rand.Shuffle`:
`ips[i], ips[j] = ips[j], ips[i]`, both right-hand sides read before
writing.  Out-of-range indices never occur in the calls made by
`rand.Shuffle`; the identity fallback keeps the function total. -/
def goSwap {α : Type*} (l : List α) (i j : ℕ) : List α :=
  if h : i < l.length ∧ j < l.length then
    (l.set i (l.get ⟨j, h.2⟩)).set j (l.get ⟨i, h.1⟩)
  else l

/-- The loop of `rand.Shuffle`: for `i` from `n-1` down to `1`, draw
`j := Intn(i+1)` and swap positions `i` and `j`.  The random draws are the
entries of `js`, reduced mod `i+1` to land in `[0, i]` as `Intn` does. -/
def shuffleIter {α : Type*} : List α → ℕ → List ℕ → List α
  | l, 0, _ => l
  | l, i+1, js => shuffleIter (goSwap l (i+1) (js.headD 0 % (i+2))) i js.tail

/-- `rand.Shuffle(len(ips), swap)` on a list, driven by the draw stream
`js` (the source seeds the generator from the wall clock first; the seed
only determines the stream, which is what `js` models). -/
def shuffle {α : Type*} (l : List α) (js : List ℕ) : List α :=
  shuffleIter l (l.length - 1) js

/-- Comparison used by `byEstimated.Less`: order hosts by their estimated
number of connections. -/
def estLe (x y : Host) : Prop := x.estimate ≤ y.estimate

instance : DecidableRel estLe :=
  fun x y => inferInstanceAs (Decidable (x.estimate ≤ y.estimate))

instance : IsTotal Host estLe := ⟨fun a b => le_total a.estimate b.estimate⟩

instance : IsTrans Host estLe := ⟨fun _ _ _ h1 h2 => le_trans h1 h2⟩

/-- The statement `active[0].estimate++` performed after sorting:
increment the estimate of the first host of the sorted slice. -/
def incFirst : List Host → List Host
  | [] => []
  | h :: t => { h with estimate := h.estimate + 1 } :: t

/-- `SessionManager.GetIPs`.  The two map iterations (over `sm.active` and
over `sm.hosts`) are passed in as the lists `active` and `allHosts` in an
arbitrary enumeration order.  The first component is the returned `[]net.IP`;
the second is the state of the `active` snapshot hosts after the call (the
slice holds pointers, so `active[0].estimate++` mutates the shared host). -/
def GetIPs (active allHosts : List Host) (js : List ℕ) : List Addr × List Host :=
  if active.isEmpty then (shuffle (allHosts.map Host.ip) js, active)
  else
    let sorted := List.insertionSort estLe active
    (sorted.map Host.ip, incFirst sorted)

/-! ### Permutation facts about the shuffle -/

lemma get_cons_set_perm {α : Type*} :
    ∀ (t : List α) (m : ℕ) (hm : m < t.length) (a : α),
      (t.get ⟨m, hm⟩ :: t.set m a).Perm (a :: t)
  | b :: s, 0, _, a => by
      simpa using List.Perm.swap a b s
  | b :: s, m+1, hm, a => by
      have ih := get_cons_set_perm s m (Nat.lt_of_succ_lt_succ hm) a
      have h1 : (s.get ⟨m, Nat.lt_of_succ_lt_succ hm⟩ :: b :: s.set m a).Perm
          (b :: s.get ⟨m, Nat.lt_of_succ_lt_succ hm⟩ :: s.set m a) :=
        List.Perm.swap b _ _
      have h2 := ih.cons b
      have h3 : (b :: a :: s).Perm (a :: b :: s) := List.Perm.swap a b s
      simpa using (h1.trans h2).trans h3

lemma set_set_perm {α : Type*} :
    ∀ (l : List α) (i j : ℕ) (hi : i < l.length) (hj : j < l.length),
      ((l.set i (l.get ⟨j, hj⟩)).set j (l.get ⟨i, hi⟩)).Perm l
  | [], i, _, hi, _ => absurd hi (Nat.not_lt_zero i)
  | _ :: _, 0, 0, _, _ => by simp
  | a :: t, 0, m+1, _, hj => by
      simpa using get_cons_set_perm t m (Nat.lt_of_succ_lt_succ hj) a
  | a :: t, k+1, 0, hi, _ => by
      simpa using get_cons_set_perm t k (Nat.lt_of_succ_lt_succ hi) a
  | a :: t, k+1, m+1, hi, hj => by
      simpa using (set_set_perm t k m (Nat.lt_of_succ_lt_succ hi)
        (Nat.lt_of_succ_lt_succ hj)).cons a

lemma goSwap_perm {α : Type*} (l : List α) (i j : ℕ) : (goSwap l i j).Perm l := by
  unfold goSwap
  split
  next h => exact set_set_perm l i j h.1 h.2
  next => exact List.Perm.refl l

lemma shuffleIter_perm {α : Type*} :
    ∀ (i : ℕ) (l : List α) (js : List ℕ), (shuffleIter l i js).Perm l
  | 0, l, _ => List.Perm.refl l
  | i+1, l, js =>
      (shuffleIter_perm i _ js.tail).trans (goSwap_perm l (i+1) _)

lemma shuffle_perm {α : Type*} (l : List α) (js : List ℕ) : (shuffle l js).Perm l :=
  shuffleIter_perm _ l js

/-! ### Claims C1 and C3: the two branches of `GetIPs` -/

/-- C1: when the active snapshot is non-empty, `GetIPs` returns a
permutation containing exactly the currently-active addresses, ordered by
non-decreasing estimate as of the snapshot taken, and as a side effect the
estimate of the first (lowest-estimate) host of the sorted snapshot is
incremented by exactly 1 while every other host of the snapshot is
unchanged (the tail `t` appears verbatim in the post-state). -/
theorem getIPs_active_sorted_increments_first (active allHosts : List Host)
    (js : List ℕ) (hne : active ≠ []) :
    ∃ h t, ((h :: t).Perm active)
      ∧ List.Sorted estLe (h :: t)
      ∧ (GetIPs active allHosts js).1 = (h :: t).map Host.ip
      ∧ ((GetIPs active allHosts js).1).Perm (active.map Host.ip)
      ∧ (GetIPs active allHosts js).2 = { h with estimate := h.estimate + 1 } :: t := by
  have hperm := List.perm_insertionSort estLe active
  have hsorted := List.sorted_insertionSort estLe active
  have hie : active.isEmpty = false := by
    cases active with
    | nil => exact absurd rfl hne
    | cons a l => rfl
  cases heq : List.insertionSort estLe active with
  | nil =>
      rw [heq] at hperm
      exact absurd hperm.symm.eq_nil hne
  | cons h t =>
      rw [heq] at hperm hsorted
      refine ⟨h, t, hperm, hsorted, ?_, ?_, ?_⟩
      · simp [GetIPs, hie, heq]
      · simpa [GetIPs, hie, heq] using hperm.map Host.ip
      · simp [GetIPs, hie, heq, incFirst]

/-- C1 witness: two active hosts with estimates 5 and 2; the call returns
them ordered 2-then-5 and bumps the estimate-2 host to 3. -/
theorem getIPs_active_sorted_increments_first_witness :
    ∃ h t, ((h :: t).Perm [⟨1, 0, 5, 90, 5⟩, ⟨2, 0, 2, 95, 2⟩])
      ∧ List.Sorted estLe (h :: t)
      ∧ (GetIPs [⟨1, 0, 5, 90, 5⟩, ⟨2, 0, 2, 95, 2⟩] [] []).1 = (h :: t).map Host.ip
      ∧ ((GetIPs [⟨1, 0, 5, 90, 5⟩, ⟨2, 0, 2, 95, 2⟩] [] []).1).Perm
          ([⟨1, 0, 5, 90, 5⟩, ⟨2, 0, 2, 95, 2⟩].map Host.ip)
      ∧ (GetIPs [⟨1, 0, 5, 90, 5⟩, ⟨2, 0, 2, 95, 2⟩] [] []).2
          = { h with estimate := h.estimate + 1 } :: t :=
  getIPs_active_sorted_increments_first
    [⟨1, 0, 5, 90, 5⟩, ⟨2, 0, 2, 95, 2⟩] [] [] (by decide)

/-- C3: when the active snapshot is empty, `GetIPs` returns exactly the
full registered address set — one entry per registered host, cardinality
preserved — whatever the random draws; and the order depends on the draws:
for any two registered hosts with distinct addresses, the draw streams
`[0]` and `[1]` produce different orders. -/
theorem getIPs_empty_full_set_shuffled :
    (∀ (allHosts : List Host) (js : List ℕ),
        ((GetIPs [] allHosts js).1).Perm (allHosts.map Host.ip)
        ∧ ((GetIPs [] allHosts js).1).length = allHosts.length)
    ∧ (∀ a b : Addr, a ≠ b →
        (GetIPs [] [newHost a, newHost b] [0]).1
          ≠ (GetIPs [] [newHost a, newHost b] [1]).1) := by
  constructor
  · intro allHosts js
    have hp : ((GetIPs [] allHosts js).1).Perm (allHosts.map Host.ip) := by
      simpa [GetIPs] using shuffle_perm (allHosts.map Host.ip) js
    exact ⟨hp, by simpa using hp.length_eq⟩
  · intro a b hab
    have h0 : (GetIPs [] [newHost a, newHost b] [0]).1 = [b, a] := rfl
    have h1 : (GetIPs [] [newHost a, newHost b] [1]).1 = [a, b] := rfl
    rw [h0, h1]
    intro hcontra
    exact hab (List.cons.injEq .. ▸ hcontra).1.symm

/-- C3 witness: concrete addresses 3 and 4.  The returned list is a
permutation of the registered addresses, and the two draw streams give
different orders. -/
theorem getIPs_empty_full_set_shuffled_witness :
    (GetIPs [] [newHost 3, newHost 4] [0]).1 ≠ (GetIPs [] [newHost 3, newHost 4] [1]).1 :=
  getIPs_empty_full_set_shuffled.2 3 4 (by decide)

/-! ### The telemetry fetcher: `getMetricValue` and `SessionManager.Scrape` -/

/-- Metric family types from `dto.MetricType`; `untyped` stands for every
type other than gauge and counter (summary, histogram, untyped), all of
which take the `default` branch of `getMetricValue`. -/
inductive MetricType where
  | gauge : MetricType
  | counter : MetricType
  | untyped : MetricType
  deriving DecidableEq

/-- One sample (`dto.Metric`): its gauge and counter fields are pointers
that may be nil, modelled by `Option`; a `none` covers both a nil
`Gauge`/`Counter` message and a nil `Value` inside it, since dereferencing
either panics. -/
structure Metric where
  gauge : Option ℚ
  counter : Option ℚ
  deriving DecidableEq

/-- A `dto.MetricFamily`: its type and its list of samples. -/
structure MetricFamily where
  type : MetricType
  metric : List Metric
  deriving DecidableEq

/-- `getMetricValue`: extract the value of the first sample of a gauge or
counter family.  `mf.GetMetric()[0]` is an unguarded index — on an empty
sample list it panics (`none`); dereferencing a missing gauge/counter value
also panics.  Any other family type is an error return (the source message
interpolates `mf`; the constant string stands for it). -/
def getMetricValue (mf : MetricFamily) : Option (Except String ℚ) :=
  match mf.type with
  | .gauge =>
    match mf.metric with
    | [] => none
    | m :: _ =>
      match m.gauge with
      | none => none
      | some v => some (.ok v)
  | .counter =>
    match mf.metric with
    | [] => none
    | m :: _ =>
      match m.counter with
      | none => none
      | some v => some (.ok v)
  | .untyped => some (.error ("Unsupported metric type"))

/-- The value the first sample of a family carries for the family's type,
if any: the quantity `getMetricValue` is meant to extract. -/
def sampleValue (ty : MetricType) (m : Metric) : Option ℚ :=
  match ty with
  | .gauge => m.gauge
  | .counter => m.counter
  | .untyped => none

/-- Outcome of the HTTP fetch inside `Scrape`: either `client.Get` failed,
or it returned a body which the text parser turned into a list of named
metric families (a Go map; the list is its enumeration) together with a
flag recording whether `TextToMetricFamilies` also returned an error.  The
parser returns the families accumulated before the error, so a partially
parseable body yields a non-empty family list with `parseErr = true`. -/
inductive ScrapeInput where
  | netErr : ScrapeInput
  | response (families : List (String × MetricFamily)) (parseErr : Bool) : ScrapeInput
  deriving DecidableEq

/-- The `for k, mf := range metrics` loop of `Scrape`: on a key match,
extract the value (an extraction error is logged and skipped with
`continue`; a panic aborts) and `host.Update(float32(value))`. -/
def scrapeFamilies (metric : String) (t : ℚ) :
    List (String × MetricFamily) → Host → Option Host
  | [], h => some h
  | (k, mf) :: rest, h =>
    if k = metric then
      match getMetricValue mf with
      | none => none
      | some (.error _) => scrapeFamilies metric t rest h
      | some (.ok v) => scrapeFamilies metric t rest (h.Update v t)
    else scrapeFamilies metric t rest h

/-- `SessionManager.Scrape` for one host: on a network error only a log
line is emitted; otherwise the families of the response are scanned.  Note
the source checks the parse error only to log it — the scan runs on the
returned (possibly partial) families either way, which is why `parseErr`
is not consulted. -/
def Scrape (metric : String) (h : Host) (t : ℚ) : ScrapeInput → Option Host
  | .netErr => some h
  | .response fams _parseErr => scrapeFamilies metric t fams h

lemma scrapeFamilies_skip {metric : String} {t : ℚ} :
    ∀ {l : List (String × MetricFamily)} (h : Host),
      (∀ p ∈ l, p.1 ≠ metric) → scrapeFamilies metric t l h = some h
  | [], _, _ => rfl
  | (k, mf) :: rest, h, hl => by
      have hk : k ≠ metric := hl (k, mf) (List.mem_cons_self _ _)
      have hrest : ∀ p ∈ rest, p.1 ≠ metric := fun p hp => hl p (List.mem_cons_of_mem _ hp)
      simp only [scrapeFamilies, if_neg hk]
      exact scrapeFamilies_skip h hrest

lemma scrapeFamilies_prepend {metric : String} {t : ℚ} :
    ∀ {l1 : List (String × MetricFamily)} {l2 : List (String × MetricFamily)} (h : Host),
      (∀ p ∈ l1, p.1 ≠ metric) →
      scrapeFamilies metric t (l1 ++ l2) h = scrapeFamilies metric t l2 h
  | [], _, _, _ => rfl
  | (k, mf) :: rest, l2, h, hl => by
      have hk : k ≠ metric := hl (k, mf) (List.mem_cons_self _ _)
      have hrest : ∀ p ∈ rest, p.1 ≠ metric := fun p hp => hl p (List.mem_cons_of_mem _ hp)
      simp only [List.cons_append, scrapeFamilies, if_neg hk]
      exact scrapeFamilies_prepend h hrest

/-! ### Claim C4: a successful scrape resets estimate, base, and timestamp -/

/-- C4: when the response contains the configured metric (once, as map
keys are unique) and its value `v` extracts successfully, the scrape
leaves the host exactly `Host.Update h v t`: estimate and base both equal
the parsed value and the update time equals the scrape time. -/
theorem scrape_success_resets_host (metric : String) (h : Host) (t : ℚ)
    (mf : MetricFamily) (v : ℚ) (pre post : List (String × MetricFamily)) (perr : Bool)
    (hpre : ∀ p ∈ pre, p.1 ≠ metric) (hpost : ∀ p ∈ post, p.1 ≠ metric)
    (hval : getMetricValue mf = some (.ok v)) :
    Scrape metric h t (.response (pre ++ (metric, mf) :: post) perr)
        = some (Host.Update h v t)
    ∧ (Host.Update h v t).estimate = (Host.Update h v t).base
    ∧ (Host.Update h v t).base = v
    ∧ (Host.Update h v t).updated = t := by
  refine ⟨?_, rfl, rfl, rfl⟩
  show scrapeFamilies metric t (pre ++ (metric, mf) :: post) h = some (Host.Update h v t)
  rw [scrapeFamilies_prepend h hpre]
  simp only [scrapeFamilies, if_pos rfl, hval]
  exact scrapeFamilies_skip _ hpost

/-- C4 witness: scraping metric `"tcp_sessions"` with gauge value 5 at
time 100 on a fresh host. -/
theorem scrape_success_resets_host_witness :
    Scrape "tcp_sessions" (newHost 1) 100
        (.response ([] ++ ("tcp_sessions", ⟨.gauge, [⟨some 5, none⟩]⟩) :: [("other", ⟨.untyped, []⟩)]) false)
        = some (Host.Update (newHost 1) 5 100)
    ∧ (Host.Update (newHost 1) 5 100).estimate = (Host.Update (newHost 1) 5 100).base
    ∧ (Host.Update (newHost 1) 5 100).base = 5
    ∧ (Host.Update (newHost 1) 5 100).updated = 100 :=
  scrape_success_resets_host "tcp_sessions" (newHost 1) 100
    ⟨.gauge, [⟨some 5, none⟩]⟩ 5 [] [("other", ⟨.untyped, []⟩)] false
    (by decide) (by decide) rfl

/-! ### Claim C5: failed scrapes leave the host untouched — except that a
parse error does not stop the scan of the partially parsed families -/

/-- C5 counterexample: an unparseable response body is one of the claim's
failure cases, yet when the text parser reports an error after having
already parsed the named metric (`parseErr = true` with the family list it
accumulated), `Scrape` still updates the host: the source logs the parse
error and then iterates over the partial families anyway. -/
theorem scrape_parse_error_still_updates :
    Scrape "m" (newHost 1) 7 (.response [("m", ⟨.gauge, [⟨some 5, none⟩]⟩)] true)
        = some (Host.Update (newHost 1) 5 7)
    ∧ Host.Update (newHost 1) 5 7 ≠ newHost 1 :=
  ⟨rfl, by decide⟩

/-- C5 amended: a scrape that fails with a network error, with the named
metric absent from the parsed families, or with every matching family of
an unsupported shape, leaves the host unchanged and returns normally (the
loop is not aborted); the body-parse-error case is excluded, since the
source keeps scanning the families parsed before the error. -/
theorem scrape_failure_leaves_host_unchanged (metric : String) (h : Host) (t : ℚ) :
    (Scrape metric h t .netErr = some h)
    ∧ (∀ fams perr, (∀ p ∈ fams, p.1 ≠ metric) →
        Scrape metric h t (.response fams perr) = some h)
    ∧ (∀ fams perr, (∀ p ∈ fams, p.1 = metric → p.2.type = .untyped) →
        Scrape metric h t (.response fams perr) = some h) := by
  refine ⟨rfl, fun fams perr hab => scrapeFamilies_skip h hab, fun fams perr hun => ?_⟩
  show scrapeFamilies metric t fams h = some h
  induction fams with
  | nil => rfl
  | cons p rest ih =>
      obtain ⟨k, mf⟩ := p
      have hrest : ∀ p ∈ rest, p.1 = metric → p.2.type = .untyped :=
        fun p hp => hun p (List.mem_cons_of_mem _ hp)
      by_cases hk : k = metric
      · have hty : mf.type = .untyped := hun (k, mf) (List.mem_cons_self _ _) hk
        simp only [scrapeFamilies, if_pos hk, getMetricValue, hty]
        exact ih hrest
      · simp only [scrapeFamilies, if_neg hk]
        exact ih hrest

/-- C5 amended witness: a response carrying only an unrelated family and a
summary-shaped family under the configured name leaves a concrete host
unchanged. -/
theorem scrape_failure_leaves_host_unchanged_witness :
    (Scrape "m" (newHost 2) 9 .netErr = some (newHost 2))
    ∧ (Scrape "m" (newHost 2) 9 (.response [("x", ⟨.gauge, []⟩)] false) = some (newHost 2))
    ∧ (Scrape "m" (newHost 2) 9 (.response [("m", ⟨.untyped, []⟩)] false) = some (newHost 2)) :=
  ⟨(scrape_failure_leaves_host_unchanged "m" (newHost 2) 9).1,
   (scrape_failure_leaves_host_unchanged "m" (newHost 2) 9).2.1
     [("x", ⟨.gauge, []⟩)] false (by decide),
   (scrape_failure_leaves_host_unchanged "m" (newHost 2) 9).2.2
     [("m", ⟨.untyped, []⟩)] false (by decide)⟩

/-! ### Claim C9: `getMetricValue` on gauge/counter families -/

/-- C9: for a gauge or counter family, when the sample list is non-empty
and its first sample carries a value for the family's type,
`getMetricValue` returns that value without error; and when the sample
list is empty, the unguarded `mf.GetMetric()[0]` access is out of bounds —
a panic (`none`), not an error return. -/
theorem getMetricValue_first_sample (mf : MetricFamily)
    (hty : mf.type = .gauge ∨ mf.type = .counter) :
    (∀ m ms v, mf.metric = m :: ms → sampleValue mf.type m = some v →
        getMetricValue mf = some (.ok v))
    ∧ (mf.metric = [] → getMetricValue mf = none) := by
  constructor
  · intro m ms v hcons hv
    cases hty with
    | inl hg =>
        rw [hg] at hv
        have hgv : m.gauge = some v := by simpa [sampleValue] using hv
        simp [getMetricValue, hg, hcons, hgv]
    | inr hc =>
        rw [hc] at hv
        have hcv : m.counter = some v := by simpa [sampleValue] using hv
        simp [getMetricValue, hc, hcons, hcv]
  · intro hnil
    cases hty with
    | inl hg => simp [getMetricValue, hg, hnil]
    | inr hc => simp [getMetricValue, hc, hnil]

/-- C9 witness: a counter family whose single sample has value 8 yields 8;
the same family with no samples panics. -/
theorem getMetricValue_first_sample_witness :
    (∀ m ms v, (MetricFamily.mk .counter [⟨none, some 8⟩]).metric = m :: ms →
        sampleValue (MetricFamily.mk .counter [⟨none, some 8⟩]).type m = some v →
        getMetricValue (MetricFamily.mk .counter [⟨none, some 8⟩]) = some (.ok v))
    ∧ ((MetricFamily.mk .counter [⟨none, some 8⟩]).metric = [] →
        getMetricValue (MetricFamily.mk .counter [⟨none, some 8⟩]) = none) :=
  getMetricValue_first_sample ⟨.counter, [⟨none, some 8⟩]⟩ (Or.inr rfl)

/-! ### Registry state and its transitions (`Add`, `ScrapeLoop` cycle, `GetIPs`) -/

/-- Dynamic state of a `SessionManager`: the registry map `sm.hosts` as the
list of its hosts (keyed by `ip`, so the ip projection is `Nodup`), and the
key set of the `sm.active` map. -/
structure SMState where
  hosts : List Host
  active : List Addr
  deriving DecidableEq

/-- Write through the registry's pointer for address `a`: the Go code holds
`*Host` values, so a mutation is visible through every alias. -/
def updateHostAt (hosts : List Host) (a : Addr) (f : Host → Host) : List Host :=
  hosts.map (fun h => if h.ip = a then f h else h)

/-- The active-status update of `ScrapeLoop`: `sm.active[host.ip] = host`
when the liveness check passes, `delete(sm.active, host.ip)` otherwise
(membership-level model of the map insert/delete). -/
def activeUpdate (act : List Addr) (a : Addr) (cond : Bool) : List Addr :=
  if cond then (if a ∈ act then act else act ++ [a])
  else act.filter (fun c => decide (c ≠ a))

/-- The mutation `active[0].estimate++` applied to one host. -/
def incEstimate (x : Host) : Host := { x with estimate := x.estimate + 1 }

/-- Events that touch the shared state: one poll cycle of `ScrapeLoop` for
a registered host (scrape at `tScrape`, then the liveness recomputation at
`tCheck`), one `GetIPs` call (`js` is its random stream), and one `Add`. -/
inductive Event where
  | scrape (a : Addr) (inp : ScrapeInput) (tScrape tCheck : ℚ) : Event
  | select (js : List ℕ) : Event
  | add (a : Addr) : Event
  deriving DecidableEq

/-- One transition of the engine.  A `scrape` event runs
`sm.Scrape(host)` on the registered host with address `a` and then the
`host.Active` recomputation, exactly as one `ScrapeLoop` iteration does.
A `select` event performs the write-back of `GetIPs`: when the snapshot of
active hosts is non-empty, `active[0].estimate++` on the first host of the
estimate-sorted snapshot mutates that host in the registry through the
shared pointer (the empty-snapshot branch only shuffles addresses and
writes nothing).  An `add` event is `SessionManager.Add`.  `none` marks a
panic, or an event the program cannot produce (scraping an unregistered
address: `ScrapeLoop` is only started on registry hosts). -/
def step (metric : String) (timeout : ℕ) (s : SMState) : Event → Option SMState
  | .scrape a inp t1 t2 =>
    match s.hosts.find? (fun h => decide (h.ip = a)) with
    | none => none
    | some h =>
      match Scrape metric h t1 inp with
      | none => none
      | some h' =>
        some { hosts := updateHostAt s.hosts a (fun _ => h'),
               active := activeUpdate s.active a (h'.Active t2 timeout) }
  | .select _ =>
    match List.insertionSort estLe (s.hosts.filter (fun h => decide (h.ip ∈ s.active))) with
    | [] => some s
    | h :: _ =>
      some { s with hosts := updateHostAt s.hosts h.ip incEstimate }
  | .add a =>
    some { s with hosts :=
      if a ∈ s.hosts.map Host.ip then s.hosts else s.hosts ++ [newHost a] }

lemma mem_activeUpdate (act : List Addr) (a b : Addr) (cond : Bool) :
    b ∈ activeUpdate act a cond ↔ ((b = a ∧ cond = true) ∨ (b ≠ a ∧ b ∈ act)) := by
  cases cond with
  | true =>
      by_cases hin : a ∈ act
      · simp only [activeUpdate, if_true, if_pos hin]
        by_cases hba : b = a
        · subst hba; simp [hin]
        · simp [hba]
      · simp only [activeUpdate, if_true, if_neg hin, List.mem_append,
          List.mem_singleton]
        by_cases hba : b = a
        · subst hba; simp [hin]
        · simp [hba]
  | false =>
      by_cases hba : b = a
      · subst hba; simp [activeUpdate, List.mem_filter]
      · simp [activeUpdate, List.mem_filter, hba]

lemma host_eq_of_ip_eq {l : List Host} (hnd : (l.map Host.ip).Nodup)
    {x y : Host} (hx : x ∈ l) (hy : y ∈ l) (hxy : x.ip = y.ip) : x = y :=
  List.inj_on_of_nodup_map hnd hx hy hxy

lemma scrapeFamilies_cases {metric : String} {t : ℚ} :
    ∀ (l : List (String × MetricFamily)) (h h' : Host),
      scrapeFamilies metric t l h = some h' → h' = h ∨ h'.estimate = h'.base
  | [], _, _, he => Or.inl (Option.some.inj he).symm
  | (k, mf) :: rest, h, h', he => by
      by_cases hk : k = metric
      · simp only [scrapeFamilies, if_pos hk] at he
        cases hgv : getMetricValue mf with
        | none => rw [hgv] at he; cases he
        | some r =>
            rw [hgv] at he
            cases r with
            | error e => exact scrapeFamilies_cases rest h h' he
            | ok v =>
                rcases scrapeFamilies_cases rest _ h' he with heq | hb
                · exact Or.inr (by rw [heq]; rfl)
                · exact Or.inr hb
      · simp only [scrapeFamilies, if_neg hk] at he
        exact scrapeFamilies_cases rest h h' he

lemma scrapeFamilies_ip {metric : String} {t : ℚ} :
    ∀ (l : List (String × MetricFamily)) (h h' : Host),
      scrapeFamilies metric t l h = some h' → h'.ip = h.ip
  | [], _, _, he => by rw [(Option.some.inj he).symm]
  | (k, mf) :: rest, h, h', he => by
      by_cases hk : k = metric
      · simp only [scrapeFamilies, if_pos hk] at he
        cases hgv : getMetricValue mf with
        | none => rw [hgv] at he; cases he
        | some r =>
            rw [hgv] at he
            cases r with
            | error e => exact scrapeFamilies_ip rest h h' he
            | ok v =>
                have hres := scrapeFamilies_ip rest (h.Update v t) h' he
                exact hres
      · simp only [scrapeFamilies, if_neg hk] at he
        exact scrapeFamilies_ip rest h h' he

lemma Scrape_cases {metric : String} {h : Host} {t : ℚ} {inp : ScrapeInput} {h' : Host}
    (he : Scrape metric h t inp = some h') : h' = h ∨ h'.estimate = h'.base := by
  cases inp with
  | netErr => exact Or.inl (Option.some.inj he).symm
  | response fams perr => exact scrapeFamilies_cases fams h h' he

lemma Scrape_ip {metric : String} {h : Host} {t : ℚ} {inp : ScrapeInput} {h' : Host}
    (he : Scrape metric h t inp = some h') : h'.ip = h.ip := by
  cases inp with
  | netErr => rw [(Option.some.inj he).symm]
  | response fams perr => exact scrapeFamilies_ip fams h h' he

/-! ### Claim C2: active-set membership is the liveness predicate -/

/-- C2: at the liveness recomputation ending a poll cycle for the host at
address `a` (whose post-scrape state is `h'`, so `h'.updated` is the time
of its last successful scrape, the sentinel 0 if there was none): `a` is
in the active set afterwards iff that last success lies strictly within
`timeout` seconds of the recomputation time `t2`; every other address's
membership is untouched (re-evaluated only at its own poll tick); and a
never-scraped host (sentinel timestamp, with the recomputation happening
at least `timeout` seconds after the epoch, as any real clock does) is not
in the active set. -/
theorem active_iff_within_timeout (metric : String) (timeout : ℕ) (s : SMState)
    (a : Addr) (inp : ScrapeInput) (t1 t2 : ℚ) (s' : SMState) (h0 h' : Host)
    (hfind : s.hosts.find? (fun h => decide (h.ip = a)) = some h0)
    (hscr : Scrape metric h0 t1 inp = some h')
    (hstep : step metric timeout s (.scrape a inp t1 t2) = some s') :
    ((a ∈ s'.active) ↔ (t2 - h'.updated < (timeout : ℚ)))
    ∧ (∀ b, b ≠ a → ((b ∈ s'.active) ↔ (b ∈ s.active)))
    ∧ (h'.updated = 0 → (timeout : ℚ) ≤ t2 → a ∉ s'.active) := by
  have hs' : s' = ⟨updateHostAt s.hosts a (fun _ => h'),
      activeUpdate s.active a (h'.Active t2 timeout)⟩ := by
    simp only [step, hfind, hscr, Option.some.injEq] at hstep
    exact hstep.symm
  have hact : s'.active = activeUpdate s.active a (h'.Active t2 timeout) := by
    rw [hs']
  refine ⟨?_, ?_, ?_⟩
  · rw [hact, mem_activeUpdate]
    constructor
    · rintro (⟨-, hc⟩ | ⟨hne, -⟩)
      · exact of_decide_eq_true hc
      · exact absurd rfl hne
    · intro hlt
      exact Or.inl ⟨rfl, decide_eq_true hlt⟩
  · intro b hba
    rw [hact, mem_activeUpdate]
    constructor
    · rintro (⟨hba', -⟩ | ⟨-, hin⟩)
      · exact absurd hba' hba
      · exact hin
    · intro hin
      exact Or.inr ⟨hba, hin⟩
  · intro hupd hle
    rw [hact, mem_activeUpdate]
    rintro (⟨-, hc⟩ | ⟨hne, -⟩)
    · have hlt : t2 - h'.updated < (timeout : ℚ) := of_decide_eq_true hc
      rw [hupd] at hlt
      linarith
    · exact absurd rfl hne

/-- Concrete post-step state for the C2 witness: one registered,
never-scraped host at address 5, active set empty before and after. -/
def sW : SMState := ⟨[newHost 5], []⟩

/-- C2 witness: a poll cycle for the never-scraped host 5 at time 100 with
a 30-second timeout (network error, so no update) leaves it out of the
active set, and the liveness iff holds at the recomputation. -/
theorem active_iff_within_timeout_witness :
    (((5 : Addr) ∈ sW.active) ↔ ((100 : ℚ) - (newHost 5).updated < ((30 : ℕ) : ℚ)))
    ∧ (((7 : Addr) ∈ sW.active) ↔ ((7 : Addr) ∈ sW.active))
    ∧ ((5 : Addr) ∉ sW.active) := by
  have hA : Host.Active ⟨5, 0, 0, 0, 0⟩ 100 30 = false := by
    simp only [Host.Active, decide_eq_false_iff_not]
    norm_num
  have hstep : step "m" 30 sW (.scrape 5 .netErr 100 100) = some sW := by
    simp [step, sW, newHost, Scrape, updateHostAt, activeUpdate, hA]
  have happ := active_iff_within_timeout "m" 30 sW 5 .netErr 100 100 sW
    (newHost 5) (newHost 5) rfl rfl hstep
  exact ⟨happ.1, happ.2.1 7 (by decide), happ.2.2 rfl (by norm_num)⟩

/-! ### Claim C8: what can write `estimate` -/

/-- C8: across every transition of the engine, a registered host's
estimate is either untouched, or reset to its (new) base value by a scrape
of that host's address — the only event that can lower it — or incremented
by exactly 1 by a `GetIPs` call; consequently, under every event that is
not a scrape, the estimate is monotonically non-decreasing.  No other
operation writes `estimate`. -/
theorem estimate_written_only_by_scrape_or_select (metric : String) (timeout : ℕ)
    (s : SMState) (e : Event) (s' : SMState)
    (hstep : step metric timeout s e = some s')
    (hnd : (s.hosts.map Host.ip).Nodup)
    (h h' : Host) (hmem : h ∈ s.hosts) (hmem' : h' ∈ s'.hosts) (hip : h'.ip = h.ip) :
    (h'.estimate = h.estimate
      ∨ ((∃ a inp t1 t2, e = .scrape a inp t1 t2 ∧ a = h.ip) ∧ h'.estimate = h'.base)
      ∨ ((∃ js, e = .select js) ∧ h'.estimate = h.estimate + 1))
    ∧ ((∀ a inp t1 t2, e ≠ .scrape a inp t1 t2) → h.estimate ≤ h'.estimate) := by
  cases e with
  | scrape a inp t1 t2 =>
      refine ⟨?_, fun hne => absurd rfl (hne a inp t1 t2)⟩
      cases hfind : s.hosts.find? (fun x => decide (x.ip = a)) with
      | none => simp [step, hfind] at hstep
      | some h0 =>
          cases hscr : Scrape metric h0 t1 inp with
          | none => simp [step, hfind, hscr] at hstep
          | some h1 =>
              have hs' : s' = ⟨updateHostAt s.hosts a (fun _ => h1),
                  activeUpdate s.active a (h1.Active t2 timeout)⟩ := by
                simp only [step, hfind, hscr, Option.some.injEq] at hstep
                exact hstep.symm
              rw [hs'] at hmem'
              obtain ⟨x, hx, hxe⟩ := List.mem_map.mp hmem'
              by_cases hxa : x.ip = a
              · rw [if_pos hxa] at hxe
                have h0mem : h0 ∈ s.hosts := List.mem_of_find?_eq_some hfind
                have hp := List.find?_some hfind
                have h0ip : h0.ip = a := of_decide_eq_true hp
                have h1ip : h1.ip = h0.ip := Scrape_ip hscr
                have hah : a = h.ip := by rw [← hip, ← hxe, h1ip, h0ip]
                have h0h : h0 = h := host_eq_of_ip_eq hnd h0mem hmem (h0ip.trans hah)
                rcases Scrape_cases hscr with h1eq | h1est
                · exact Or.inl (by rw [← hxe, h1eq, h0h])
                · exact Or.inr (Or.inl ⟨⟨a, inp, t1, t2, rfl, hah⟩, hxe ▸ h1est⟩)
              · rw [if_neg hxa] at hxe
                have hxh : x = h := host_eq_of_ip_eq hnd hx hmem (hxe ▸ hip)
                exact Or.inl (by rw [← hxe, hxh])
  | select js =>
      cases hsort : List.insertionSort estLe
          (s.hosts.filter (fun x => decide (x.ip ∈ s.active))) with
      | nil =>
          have hs' : s' = s := by
            simp only [step, hsort, Option.some.injEq] at hstep
            exact hstep.symm
          rw [hs'] at hmem'
          have hxh : h' = h := host_eq_of_ip_eq hnd hmem' hmem hip
          exact ⟨Or.inl (by rw [hxh]), fun _ => le_of_eq (by rw [hxh])⟩
      | cons hm rest =>
          have hs' : s' = { s with hosts := updateHostAt s.hosts hm.ip incEstimate } := by
            simp only [step, hsort, Option.some.injEq] at hstep
            exact hstep.symm
          rw [hs'] at hmem'
          obtain ⟨x, hx, hxe⟩ := List.mem_map.mp hmem'
          by_cases hxa : x.ip = hm.ip
          · rw [if_pos hxa] at hxe
            have hxip : x.ip = h.ip := by rw [← hip, ← hxe]; rfl
            have hxh : x = h := host_eq_of_ip_eq hnd hx hmem hxip
            have hest : h'.estimate = h.estimate + 1 := by
              rw [← hxe, hxh]; rfl
            exact ⟨Or.inr (Or.inr ⟨⟨js, rfl⟩, hest⟩), fun _ => by rw [hest]; linarith⟩
          · rw [if_neg hxa] at hxe
            have hxh : x = h := host_eq_of_ip_eq hnd hx hmem (hxe ▸ hip)
            have heq : h' = h := by rw [← hxe, hxh]
            exact ⟨Or.inl (by rw [heq]), fun _ => le_of_eq (by rw [heq])⟩
  | add a =>
      by_cases hin : a ∈ s.hosts.map Host.ip
      · have hs' : s' = { s with hosts := s.hosts } := by
          simp only [step, if_pos hin, Option.some.injEq] at hstep
          exact hstep.symm
        rw [hs'] at hmem'
        have hxh : h' = h := host_eq_of_ip_eq hnd hmem' hmem hip
        exact ⟨Or.inl (by rw [hxh]), fun _ => le_of_eq (by rw [hxh])⟩
      · have hs' : s' = { s with hosts := s.hosts ++ [newHost a] } := by
          simp only [step, if_neg hin, Option.some.injEq] at hstep
          exact hstep.symm
        rw [hs'] at hmem'
        rcases List.mem_append.mp hmem' with hold | hnew
        · have hxh : h' = h := host_eq_of_ip_eq hnd hold hmem hip
          exact ⟨Or.inl (by rw [hxh]), fun _ => le_of_eq (by rw [hxh])⟩
        · exfalso
          have hna : h' = newHost a := List.mem_singleton.mp hnew
          apply hin
          rw [show a = h.ip from by rw [← hip, hna]; rfl]
          exact List.mem_map_of_mem Host.ip hmem

/-- C8 witness: a `GetIPs` call on a state with one registered inactive
host leaves that host's estimate unchanged (and, the event not being a
scrape, non-decreasing). -/
theorem estimate_written_only_by_scrape_or_select_witness :
    ((newHost 5).estimate = (newHost 5).estimate
      ∨ ((∃ a inp t1 t2, Event.select [] = Event.scrape a inp t1 t2 ∧ a = (newHost 5).ip)
          ∧ (newHost 5).estimate = (newHost 5).base)
      ∨ ((∃ js, Event.select [] = Event.select js)
          ∧ (newHost 5).estimate = (newHost 5).estimate + 1))
    ∧ (newHost 5).estimate ≤ (newHost 5).estimate := by
  have happ := estimate_written_only_by_scrape_or_select "m" 30 sW (.select []) sW
    rfl (by simp [sW, newHost]) (newHost 5) (newHost 5)
    (List.mem_cons_self _ _) (List.mem_cons_self _ _) rfl
  exact ⟨happ.1, happ.2 (fun a inp t1 t2 hcontra => Event.noConfusion hcontra)⟩

/-! ### Configuration: `setup.go` constants, `checkSessionInputs`, `parseSession` -/

/-- Option keys from `session.go`. -/
def sessionTargetIps : String := "session_target_ips"

/-- The `session_domain` key. -/
def sessionDomain : String := "session_domain"

/-- The `session_scrape_metric` key. -/
def sessionScrapeMetric : String := "session_scrape_metric"

/-- The `session_scrape_port` key. -/
def sessionScrapePort : String := "session_scrape_port"

/-- The `session_scrape_timeout` key. -/
def sessionScrapeTimeout : String := "session_scrape_timeout"

/-- Configuration fields of `SessionManager` (its dynamic host/active maps
are modelled separately by `SMState`; here `hosts` is the registered key
set the `Add` calls of `parseSession` build up). -/
structure SessionManager where
  scrapeMetric : String
  scrapePort : ℕ
  scrapeTimeoutSeconds : ℕ
  scrapeIntervalSeconds : ℕ
  hosts : List Addr
  deriving DecidableEq

/-- `NewSessionManager`: defaults 30s timeout, 15s interval, empty maps;
`scrapeMetric` and `scrapePort` take Go zero values. -/
def NewSessionManager : SessionManager :=
  { scrapeMetric := "", scrapePort := 0,
    scrapeTimeoutSeconds := DefaultTimeoutSeconds,
    scrapeIntervalSeconds := DefaultScrapeSeconds, hosts := [] }

/-- `SessionManager.Add` at configuration level: a duplicate address is a
no-op, a fresh one is registered. -/
def SessionManager.Add (sm : SessionManager) (a : Addr) : SessionManager :=
  if a ∈ sm.hosts then sm else { sm with hosts := sm.hosts ++ [a] }

/-- `SessionLoadBalancer` from `session.go`. -/
structure SessionLoadBalancer where
  hostname : String
  domain : String
  manager : SessionManager
  deriving DecidableEq

/-- `NewSessionLoadBalancer`. -/
def NewSessionLoadBalancer : SessionLoadBalancer := ⟨"", "", NewSessionManager⟩

/-- A decimal digit and its value. -/
def charDigit (c : Char) : Option ℕ :=
  let n := c.toNat
  if 48 ≤ n ∧ n ≤ 57 then some (n - 48) else none

/-- Decimal digit run, accumulator style; any non-digit is a syntax error. -/
def digitsToNat : List Char → ℕ → Option ℕ
  | [], acc => some acc
  | c :: cs, acc =>
    match charDigit c with
    | none => none
    | some d => digitsToNat cs (acc * 10 + d)

/-- Base-10 integer syntax of Go `strconv.ParseInt`: an optional sign
followed by one or more decimal digits. -/
def goParseIntCore : List Char → Option Int
  | [] => none
  | c :: rest =>
    if c = '-' then
      if rest.isEmpty then none else (digitsToNat rest 0).map (fun n => -(n : Int))
    else if c = '+' then
      if rest.isEmpty then none else (digitsToNat rest 0).map (fun n => (n : Int))
    else (digitsToNat (c :: rest) 0).map (fun n => (n : Int))

/-- Go `strconv.ParseInt(value, 10, 32)`: the parsed value together with
the success flag (`err == nil`).  On a syntax error Go yields 0; on a
range error the clamped extreme, in both cases with an error. -/
def goParseInt32 (s : String) : Int × Bool :=
  match goParseIntCore s.data with
  | none => (0, false)
  | some i =>
    if i < -(2 ^ 31) then (-(2 ^ 31), false)
    else if 2 ^ 31 ≤ i then (2 ^ 31 - 1, false)
    else (i, true)

/-- Key classes of `checkSessionInputs`. -/
def singleInputKeys : List String :=
  [sessionDomain, sessionScrapeMetric, sessionScrapePort, sessionScrapeTimeout]

/-- Keys taking one or more arguments. -/
def multipleInputKeys : List String := [sessionTargetIps]

/-- Keys whose (single) argument must be numeric. -/
def numericInputKeys : List String := [sessionScrapePort, sessionScrapeTimeout]

/-- `checkSessionInputs`: three sequential guarded error returns.  The
`args[0]` read in the numeric check is reached only when the length guards
passed (every numeric key is a single-input key), so `headD` is exact on
all reachable inputs. -/
def checkSessionInputs (key : String) (args : List String) : Except String Unit :=
  if key ∈ singleInputKeys ∧ args.length ≠ 1 then
    .error ("Expected single parameters for " ++ key)
  else if key ∈ multipleInputKeys ∧ args.length = 0 then
    .error ("Expected 1+ parameters for " ++ key)
  else if key ∈ numericInputKeys ∧ (goParseInt32 (args.headD "")).2 = false then
    .error ("Failed to parse " ++ key ++ ": " ++ args.headD "" ++ " is not a number")
  else .ok ()

/-- Abstract model of `netip.ParseAddr`: which strings denote a single
address, and which address.  Only the success/failure split and
injectivity matter to the settled claims. -/
def parseAddr (s : String) : Option Addr := s.toNat?

/-- Abstract model of `expandNetworkPrefix` (`net.ParseCIDR` plus
expansion).  No settled claim exercises a successful CIDR expansion, so
the model keeps only the failure path, which `parseTargetIps` propagates
to the caller exactly as the source does. -/
def expandCIDR (s : String) : Except String (List Addr) :=
  .error ("invalid CIDR address: " ++ s)

/-- `parseTargetIps`: each entry is first tried as a single address and
otherwise expanded as a CIDR; a CIDR parse error aborts with the error. -/
def parseTargetIps : List String → Except String (List Addr)
  | [] => .ok []
  | p :: rest =>
    match parseAddr p with
    | some ip => (parseTargetIps rest).map (fun ips => ip :: ips)
    | none =>
      match expandCIDR p with
      | .error e => .error e
      | .ok ips => (parseTargetIps rest).map (fun rest2 => ips ++ rest2)

/-- The token stream the Caddy controller delivers for one directive: the
directive's own arguments (`c.RemainingArgs()` at the top of
`parseSession`) and one entry per block line, pairing `c.Val()` with that
line's `c.RemainingArgs()`. -/
structure SessionConfig where
  args : List String
  blocks : List (String × List String)

/-- The `for c.NextBlock()` loop body of `parseSession`, iterated over the
block lines.  Faithful to the source: the `checkSessionInputs` result is
computed and discarded; `value := args[0]` panics (`none`) on an empty
argument list; `i, _ := strconv.ParseInt(value, 10, 32)` drops the parse
error; `uint16(i)` and `uint(i)` are the Go integer conversions (reduction
mod 2^16 and 2^64). -/
def parseBlocks : SessionLoadBalancer → List (String × List String) →
    Option (Except String SessionLoadBalancer)
  | s, [] => some (.ok s)
  | s, (key, bargs) :: rest =>
    let _chk := checkSessionInputs key bargs
    match bargs with
    | [] => none
    | value :: _ =>
      let i := (goParseInt32 value).1
      if key = sessionTargetIps then
        match parseTargetIps bargs with
        | .error e => some (.error e)
        | .ok ips =>
          parseBlocks { s with manager := ips.foldl SessionManager.Add s.manager } rest
      else if key = sessionDomain then
        parseBlocks { s with domain := value } rest
      else if key = sessionScrapeMetric then
        parseBlocks { s with manager := { s.manager with scrapeMetric := value } } rest
      else if key = sessionScrapePort then
        parseBlocks
          { s with manager :=
              { s.manager with scrapePort := (i.emod (2 ^ 16)).toNat } } rest
      else if key = sessionScrapeTimeout then
        parseBlocks
          { s with manager :=
              { s.manager with scrapeTimeoutSeconds := (i.emod (2 ^ 64)).toNat } } rest
      else some (.error ("Unknown parameter: " ++ key))

/-- `parseSession`: exactly two directive arguments are required
(`session` and the hostname); then the block lines are processed.  The
trailing `session.manager.Start()` and `session.PrintConfig()` only
launch the pollers and log; they do not change the parsed configuration. -/
def parseSession (cfg : SessionConfig) : Option (Except String SessionLoadBalancer) :=
  match cfg.args with
  | [_, hostname] =>
    parseBlocks { NewSessionLoadBalancer with hostname := hostname } cfg.blocks
  | _ => some (.error ("Expected session and hostname parameters."))

/-! ### Claim C6: configuration errors and setup -/

/-- C6 evidence: a malformed numeric option value is NOT surfaced as a
setup failure.  `checkSessionInputs` does reject the block
`session_scrape_port abc`, but `parseSession` discards that result, parses
`"abc"` as 0 and returns success — the engine starts with scrape port 0. -/
theorem parseSession_ignores_numeric_error :
    parseSession ⟨["session", "svc"], [("session_scrape_port", ["abc"])]⟩
        = some (.ok ⟨"svc", "", NewSessionManager⟩)
    ∧ (⟨"svc", "", NewSessionManager⟩ : SessionLoadBalancer).manager.scrapePort = 0
    ∧ checkSessionInputs "session_scrape_port" ["abc"]
        = .error ("Failed to parse session_scrape_port: abc is not a number") :=
  ⟨rfl, rfl, rfl⟩

/-! ### Claim C7: the scrape interval option -/

/-- C7 counterexample: the scrape interval is not a recognized
configuration option — a block using the natural key
`session_scrape_interval` makes setup fail with an unknown-parameter
error (no key in the parser sets `scrapeIntervalSeconds`). -/
theorem parseSession_rejects_scrape_interval :
    parseSession ⟨["session", "svc"], [("session_scrape_interval", ["10"])]⟩
        = some (.error ("Unknown parameter: session_scrape_interval")) :=
  rfl

lemma Add_interval (sm : SessionManager) (a : Addr) :
    (sm.Add a).scrapeIntervalSeconds = sm.scrapeIntervalSeconds := by
  unfold SessionManager.Add
  split <;> rfl

lemma foldl_Add_interval :
    ∀ (ips : List Addr) (sm : SessionManager),
      (ips.foldl SessionManager.Add sm).scrapeIntervalSeconds = sm.scrapeIntervalSeconds
  | [], _ => rfl
  | ip :: rest, sm => by
      rw [List.foldl_cons, foldl_Add_interval rest (sm.Add ip), Add_interval]

lemma parseBlocks_interval :
    ∀ (blocks : List (String × List String)) (s : SessionLoadBalancer)
      (slb : SessionLoadBalancer),
      parseBlocks s blocks = some (.ok slb) →
      slb.manager.scrapeIntervalSeconds = s.manager.scrapeIntervalSeconds
  | [], s, slb, he => by
      cases Option.some.inj he
      rfl
  | (key, bargs) :: rest, s, slb, he => by
      cases bargs with
      | nil =>
          simp only [parseBlocks] at he
          exact Option.noConfusion he
      | cons value vrest =>
          simp only [parseBlocks] at he
          by_cases h1 : key = sessionTargetIps
          · rw [if_pos h1] at he
            cases hti : parseTargetIps (value :: vrest) with
            | error e => rw [hti] at he; cases Option.some.inj he
            | ok ips =>
                rw [hti] at he
                rw [parseBlocks_interval rest _ slb he]
                exact foldl_Add_interval ips s.manager
          · rw [if_neg h1] at he
            by_cases h2 : key = sessionDomain
            · rw [if_pos h2] at he
              exact (parseBlocks_interval rest _ slb he).trans rfl
            · rw [if_neg h2] at he
              by_cases h3 : key = sessionScrapeMetric
              · rw [if_pos h3] at he
                exact (parseBlocks_interval rest _ slb he).trans rfl
              · rw [if_neg h3] at he
                by_cases h4 : key = sessionScrapePort
                · rw [if_pos h4] at he
                  exact (parseBlocks_interval rest _ slb he).trans rfl
                · rw [if_neg h4] at he
                  by_cases h5 : key = sessionScrapeTimeout
                  · rw [if_pos h5] at he
                    exact (parseBlocks_interval rest _ slb he).trans rfl
                  · rw [if_neg h5] at he
                    cases Option.some.inj he

/-- C7 amended: the scrape interval is not configurable; it is fixed at
the default of 15 seconds — `NewSessionManager` installs
`DefaultScrapeSeconds = 15` and every successful `parseSession` outcome
still carries 15. -/
theorem scrape_interval_fixed_default :
    NewSessionManager.scrapeIntervalSeconds = DefaultScrapeSeconds
    ∧ DefaultScrapeSeconds = 15
    ∧ ∀ (cfg : SessionConfig) (slb : SessionLoadBalancer),
        parseSession cfg = some (.ok slb) → slb.manager.scrapeIntervalSeconds = 15 := by
  refine ⟨rfl, rfl, fun cfg slb he => ?_⟩
  unfold parseSession at he
  cases hargs : cfg.args with
  | nil => rw [hargs] at he; cases Option.some.inj he
  | cons a1 rest1 =>
      cases rest1 with
      | nil => rw [hargs] at he; cases Option.some.inj he
      | cons a2 rest2 =>
          cases rest2 with
          | nil =>
              rw [hargs] at he
              exact parseBlocks_interval cfg.blocks _ slb he
          | cons a3 rest3 => rw [hargs] at he; cases Option.some.inj he

/-- C7 amended witness: parsing a block-less `session svc` directive
returns a balancer whose interval is 15 seconds. -/
theorem scrape_interval_fixed_default_witness :
    (⟨"svc", "", NewSessionManager⟩ : SessionLoadBalancer).manager.scrapeIntervalSeconds
        = 15 :=
  scrape_interval_fixed_default.2.2 ⟨["session", "svc"], []⟩
    ⟨"svc", "", NewSessionManager⟩ rfl

/-! ### Claim C10: `ServeSession` and non-A queries -/

/-- Go `strings.TrimSuffix`. -/
def trimSuffix (s sfx : String) : String :=
  if s.endsWith sfx then s.dropRight sfx.length else s

/-- The `split` helper of `session.go`: strip one trailing dot, split on
dots; the hostname is the first label (`strings.Split` never yields an
empty list) and the domain joins the remaining labels. -/
def split (fqdn : String) : String × String :=
  let names := (trimSuffix fqdn ".").splitOn "."
  (names.headD "", if 1 < names.length then String.intercalate "." names.tail else "")

/-- `dns.TypeA`. -/
def dnsTypeA : ℕ := 1

/-- Outcome of `LoadBalance.ServeSession`: either an authoritative reply
whose A records carry `ips`, or the `plugin.NextOrFailure` fallthrough to
the next handler in the chain. -/
inductive ServeResult where
  | answered (ips : List Addr) : ServeResult
  | nextHandler : ServeResult
  deriving DecidableEq

/-- `LoadBalance.ServeSession` on a query with name `qname`
(`state.Name()`) and numeric type `qtype` (`state.QType()`).  The `ips`
argument stands for the value `lb.session.GetIPs()` produces at this
instant (it depends on the shared registry state and the random stream,
which the handler merely forwards into the answer records). -/
def ServeSession (slb : SessionLoadBalancer) (qname : String) (qtype : ℕ)
    (ips : List Addr) : ServeResult :=
  let hd := split qname
  let hostnameMatch := hd.1 = slb.hostname
  let domainMatch := (slb.domain = "" ∨ hd.2 = slb.domain)
  if qtype ≠ dnsTypeA then .nextHandler
  else if hostnameMatch ∧ domainMatch then .answered ips
  else .nextHandler

/-- C10: a query whose type is not A is passed to the next handler without
an answer, whatever the query name — in particular also when the hostname
and domain both match the configured values; only A queries reach the
session-based selection. -/
theorem serveSession_non_A_goes_next (slb : SessionLoadBalancer) (qname : String)
    (qtype : ℕ) (ips : List Addr) (hq : qtype ≠ dnsTypeA) :
    ServeSession slb qname qtype ips = .nextHandler := by
  simp [ServeSession, hq]

/-- C10 witness: a TXT query (type 16) for `svc.example.com.`, whose
hostname and domain match the configured balancer, still falls through. -/
theorem serveSession_non_A_goes_next_witness :
    ServeSession ⟨"svc", "example.com", NewSessionManager⟩ "svc.example.com." 16 [1, 2]
        = .nextHandler :=
  serveSession_non_A_goes_next ⟨"svc", "example.com", NewSessionManager⟩
    "svc.example.com." 16 [1, 2] (by decide)

end LoadBalance
